import Mathlib

/-!
Verification of the mention-lifecycle pipeline of bilibili-grok.

Shallow embedding of the Python sources:
  * `src/grok/db.py`      — SQLite-backed mention store, modelled as a `List Mention`
                            in row (insertion) order;
  * `src/grok/mention.py` — feed ingestion (`sync_mentions`), actionability filter
                            (`filter_valid_mentions`) and the per-mention processing
                            step of `process_mentions`;
  * `src/grok/main.py`    — `GrokBot._handle_mention`, the mention handler composed
                            of reply generation and dispatch;
  * `src/grok/reply.py`   — the dispatcher throttle (`_check_rate_limit`), modelled
                            over rational timestamps.

Timestamps that SQLite fills with CURRENT_TIMESTAMP are modelled as an explicit
`now : Int` argument threaded into the operations that touch them.
-/

namespace BilibiliGrok

/-- A mention's `kind`/`type` discriminator.  In the source it is dynamically
typed: the feed may deliver either a numeric legacy encoding or a string
(`MentionItem.type` in `src/grok/mention.py`). -/
inductive Kind where
  | num (n : Int)
  | str (s : String)
deriving DecidableEq, Repr

/-- The `Mention` dataclass of `src/grok/db.py` (one row of the `mentions`
table).  `reply_content`, `created_at`, `updated_at`, `at_details` are nullable
in the schema, hence `Option`. -/
structure Mention where
  id : Int
  type : Kind
  oid : Int
  root : Int
  parent : Int
  mid : Int
  uname : String
  content : String
  ctime : Int
  status : String
  reply_content : Option String := none
  created_at : Option Int := none
  updated_at : Option Int := none
  at_details : Option (List (Int × String)) := none
deriving DecidableEq, Repr

/-- Does the table already contain a row with this primary key?  (The SQLite
`INTEGER PRIMARY KEY` constraint that makes a duplicate `INSERT` raise
`IntegrityError` in `Database.insert_mention`.) -/
def hasId (db : List Mention) (i : Int) : Bool :=
  db.any (fun r => r.id == i)

/-- The row actually written by the `INSERT` of `Database.insert_mention`:
its column list omits `reply_content` (so the row starts with NULL there) and
`created_at` / `updated_at` take the `CURRENT_TIMESTAMP` default. -/
def insertedRow (m : Mention) (now : Int) : Mention :=
  { m with reply_content := none, created_at := some now, updated_at := some now }

/-- `Database.insert_mention` (src/grok/db.py): insert with deduplication.
Returns `true` if inserted, `false` if the id already exists (the
`IntegrityError` branch). -/
def insert_mention (db : List Mention) (m : Mention) (now : Int) : Bool × List Mention :=
  if hasId db m.id then (false, db)
  else (true, db ++ [insertedRow m now])

/-- `Database.update_mention_status` (src/grok/db.py):
`UPDATE mentions SET status = ?, reply_content = ?, updated_at = CURRENT_TIMESTAMP
WHERE id = ?`.  Note that `reply_content` is always overwritten with the
parameter (which defaults to NULL at the call sites that omit it), and that an
absent `id` simply updates zero rows. -/
def update_mention_status (db : List Mention) (id : Int) (status : String)
    (reply_content : Option String) (now : Int) : List Mention :=
  db.map (fun r =>
    if r.id = id then
      { r with status := status, reply_content := reply_content, updated_at := some now }
    else r)

/-- The scan behind `ORDER BY ctime DESC LIMIT 1` in
`Database.get_one_pending_mention`: pick a row of maximal `ctime` (SQLite
leaves the order of equal `ctime` rows unspecified; this model prefers the
later row of the list on ties). -/
def pickNewest : List Mention → Option Mention
  | [] => none
  | r :: rest =>
    match pickNewest rest with
    | none => some r
    | some b => if b.ctime < r.ctime then some r else some b

/-- `Database.get_one_pending_mention` (src/grok/db.py): a `SELECT` returning
one `pending` row of maximal `ctime` (LIFO / newest-first) — or `none` — and
leaving the table unchanged (second component). -/
def get_one_pending_mention (db : List Mention) : Option Mention × List Mention :=
  (pickNewest (db.filter (fun r => r.status == "pending")), db)

/-- A store error, mirroring the spec's `NotFound` for `updateStatus`
(§4.1 of the spec). -/
inductive DbError where
  | notFound
deriving DecidableEq, Repr

/-- Refinement mirror, written from the spec's words (§4.1):
`updateStatus(id, status, replyText?) -> void`: updates
status/replyText/updatedAt; fails with `NotFound` if `id` is absent.
Compared against `update_mention_status`, which the source defines without
any absence check. -/
def updateStatusSpec (db : List Mention) (id : Int) (status : String)
    (reply_content : Option String) (now : Int) : Except DbError (List Mention) :=
  if hasId db id then .ok (update_mention_status db id status reply_content now)
  else .error .notFound

/-- Modelled from the spec: `listStale(status, olderThanEpoch)` (§4.1) belongs
to the store variant adopted by the spec but missing from `src/` (only the
configuration fields `processing_timeout_minutes` / `processing_interval_seconds`
and the tests refer to that variant).  Spec: "records stuck in a given status
since before a cutoff — used for timeout recovery".  A row with a NULL
`updated_at` cannot be older than any cutoff. -/
def staleB (r : Mention) (status : String) (cutoff : Int) : Bool :=
  r.status == status &&
    (match r.updated_at with
     | some u => decide (u < cutoff)
     | none => false)

/-- Modelled from the spec: `listStale(status, olderThanEpoch) -> [MentionRecord]`
(§4.1), part of the variant missing from `src/`. -/
def listStale (db : List Mention) (status : String) (cutoff : Int) : List Mention :=
  db.filter (fun r => staleB r status cutoff)

/-- Modelled from the spec: the timeout-recovery step of §4.3/§4.5 — "find
records in `processing` whose `updatedAt` is older than a configurable stale
threshold and reset them to `pending`" — part of the variant missing from
`src/`.  Resetting a row also refreshes its `updatedAt`. -/
def recoverStale (db : List Mention) (cutoff now : Int) : List Mention :=
  db.map (fun r =>
    if staleB r "processing" cutoff then
      { r with status := "pending", updated_at := some now }
    else r)

/-! ## Feed ingestion (src/grok/mention.py) -/

/-- A raw feed item as consumed by the ingestor: the fields that the
`MentionItem` properties of `src/grok/mention.py` extract from the raw JSON
payload. -/
structure MentionItem where
  id : Int
  type : Kind
  oid : Int
  root : Int
  parent : Int
  mid : Int
  uname : String
  content : String
  ctime : Int
  hide_reply_button : Bool
deriving DecidableEq, Repr

/-- Python's `str.lower()` on the characters of a string (ASCII case
mapping), written character-wise so that it evaluates by kernel reduction. -/
def lowerStr (s : String) : String :=
  String.mk (s.data.map Char.toLower)

/-- Lowercasing applied to string kinds before the membership test in
`MentionMonitor.filter_valid_mentions` (`type_val = type_val.lower()`). -/
def lowerKind : Kind → Kind
  | .num n => .num n
  | .str s => .str (lowerStr s)

/-- The membership test `type_val in valid_types` of
`MentionMonitor.filter_valid_mentions`, with
`valid_types = {1, 2, 17, "reply", "dynamic"}`. -/
def validKind (k : Kind) : Bool :=
  match lowerKind k with
  | .num n => n == 1 || n == 2 || n == 17
  | .str s => s == "reply" || s == "dynamic"

/-- `MentionMonitor.filter_valid_mentions` (src/grok/mention.py): drop items
with `hide_reply_button` and items whose kind is outside the allow-set. -/
def filter_valid_mentions (mentions : List MentionItem) : List MentionItem :=
  mentions.filter (fun m => !m.hide_reply_button && validKind m.type)

/-- The `Mention` built from a feed item inside `MentionMonitor.sync_mentions`
(status `"pending"`, the remaining nullable columns left at their defaults). -/
def toDbMention (m : MentionItem) : Mention :=
  { id := m.id, type := m.type, oid := m.oid, root := m.root, parent := m.parent,
    mid := m.mid, uname := m.uname, content := m.content, ctime := m.ctime,
    status := "pending" }

/-- The inner `for mention in valid_mentions` loop of
`MentionMonitor.sync_mentions`: attempt to insert every item, counting the
inserts that returned `True`; an insert returning `False` is skipped and the
loop continues. -/
def insertBatch : List MentionItem → List Mention → Int → Nat × List Mention
  | [], db, _ => (0, db)
  | m :: rest, db, now =>
    let res := insert_mention db (toDbMention m) now
    let tail := insertBatch rest res.2 now
    (cond res.1 (tail.1 + 1) tail.1, tail.2)

/-- `MentionMonitor.sync_mentions` (src/grok/mention.py), with the paginated
feed modelled as the list of successive `fetch_mention_list` responses
`(items, next cursor)`.  The loop stops on an empty page (before inserting
anything from it) or, after processing a page, when the cursor sentinel `0`
was returned.  The monitor is taken to be running throughout (`_running`
stays true; stopping mid-sweep is outside the claims considered here). -/
def sync_mentions : List (List MentionItem × Int) → List Mention → Int → Nat × List Mention
  | [], db, _ => (0, db)
  | (items, cur) :: rest, db, now =>
    if items.isEmpty then (0, db)
    else
      let page := insertBatch (filter_valid_mentions items) db now
      if cur = 0 then page
      else
        let tail := sync_mentions rest page.2 now
        (page.1 + tail.1, tail.2)

/-! ## Reply generation and dispatch outcomes
(src/grok/main.py `GrokBot._handle_mention`, src/grok/agent.py
`BilibiliAgent.generate_reply`, src/grok/reply.py `CommentReply`). -/

/-- How the reply-producer call behind `BilibiliAgent.generate_reply` ends:
a text (possibly empty), an exception (LLM failure or `asyncio.TimeoutError`,
both surfaced as `AgentError`), or cancellation of the awaiting task. -/
inductive GenOutcome where
  | ok (text : String)
  | err
  | cancelled
deriving DecidableEq, Repr

/-- How the dispatcher call `CommentReply.reply_to_comment` ends: success, a
raised `ReplyError` (the protocol-error taxonomy, e.g. `CommentDeletedError`
for code 12002), or cancellation during its awaits. -/
inductive DispatchOutcome where
  | ok
  | protocolError
  | cancelled
deriving DecidableEq, Repr

/-- What a call observes from `generate_reply`: a returned string or a raised
exception.  `generate_reply` converts `asyncio.CancelledError` into
`AgentError` (src/grok/agent.py lines 136–138), so cancellation during
generation surfaces as an ordinary exception, not as cancellation. -/
inductive GenResult where
  | ret (text : String)
  | raised
deriving DecidableEq, Repr

/-- `BilibiliAgent.generate_reply` viewed through its outcome: errors and
timeouts raise `AgentError`; a cancellation is caught and re-raised as
`AgentError` as well. -/
def generate_reply : GenOutcome → GenResult
  | .ok t => .ret t
  | .err => .raised
  | .cancelled => .raised

/-- What `process_mentions` observes from the handler callback: a returned
`Optional[str]`, or a propagating `asyncio.CancelledError` (which, being a
`BaseException`, escapes every `except Exception` on the way). -/
inductive HandlerResult where
  | returns (reply : Option String)
  | raised
  | cancels
deriving DecidableEq, Repr

/-- `GrokBot._handle_mention` (src/grok/main.py): the whole body sits in one
`try` whose `except Exception` returns `None`.  A generation failure (or
timeout, or cancellation converted to `AgentError`) is therefore caught and
yields `None`; a dispatch `ReplyError` is likewise caught and yields `None`;
only a `CancelledError` raised during dispatch escapes.  On success the
generated text is returned. -/
def handle_mention (gen : GenOutcome) (disp : DispatchOutcome) : HandlerResult :=
  match generate_reply gen with
  | .raised => .returns none
  | .ret t =>
    match disp with
    | .ok => .returns (some t)
    | .protocolError => .returns none
    | .cancelled => .cancels

/-- The body of the `for mention in pending` loop of
`MentionMonitor.process_mentions` (src/grok/mention.py lines 231–256) for one
claimed mention, with the monitor running throughout: mark `processing`, run
the handler, then mark `replied` (storing the text) if the result is truthy,
`skipped` if it is `None` or empty, `failed` if the handler raised an
`Exception`; a propagating cancellation leaves the record as it is. -/
def processOne (db : List Mention) (id : Int) (h : HandlerResult) (now : Int) :
    List Mention :=
  let db1 := update_mention_status db id "processing" none now
  match h with
  | .returns (some r) =>
    if r = "" then update_mention_status db1 id "skipped" none now
    else update_mention_status db1 id "replied" (some r) now
  | .returns none => update_mention_status db1 id "skipped" none now
  | .raised => update_mention_status db1 id "failed" none now
  | .cancels => db1

/-- Status and stored reply text of the first record with the given id. -/
def statusReplyOf (db : List Mention) (id : Int) : Option (String × Option String) :=
  (db.find? (fun r => r.id == id)).map (fun r => (r.status, r.reply_content))

/-! ## Dispatcher throttle (src/grok/reply.py) -/

/-- `CommentReply._check_rate_limit`, over rational timestamps: called at time
`now` with the stored `_last_reply_time = last`, it sleeps `rate - (now - last)`
when `now - last < rate`; the returned value is the time at which the wait ends
— which is also the value then stored into `_last_reply_time`, taken *before*
the HTTP write is issued. -/
def check_rate_limit (rate last now : ℚ) : ℚ :=
  if now - last < rate then now + (rate - (now - last)) else now

/-- One `CommentReply.reply_to_comment` call in the timing model: called at
time `start` with throttle state `last`, its underlying write takes `dur ≥ 0`.
Result: (write issue time, completion time, new `_last_reply_time`). -/
def reply_to_comment_times (rate last start dur : ℚ) : ℚ × ℚ × ℚ :=
  let issue := check_rate_limit rate last start
  (issue, issue + dur, issue)

/-- What awaiting `_check_rate_limit` yields when the surrounding task may be
cancelled: the wait runs to its scheduled wake, or the `asyncio.sleep` inside
it raises `CancelledError` at some instant. -/
inductive WaitResult where
  | completed (wake : ℚ)
  | cancelledAt (t : ℚ)
deriving DecidableEq, Repr

/-- `CommentReply._check_rate_limit` with a cancellation signal at time `c`:
in the branch that sleeps (`now - last < rate`), the `await asyncio.sleep`
from `now` until the scheduled wake is a suspension point, so a cancellation
signalled before the wake aborts it at the signal (immediately, at `now`, if
the task was cancelled before the sleep began); in the other branch nothing
is awaited and the wait completes at once. -/
def check_rate_limit_cancellable (rate last now c : ℚ) : WaitResult :=
  if now - last < rate then
    if c < now + (rate - (now - last)) then .cancelledAt (max now c)
    else .completed (now + (rate - (now - last)))
  else .completed now

/-! ## Driver loop timing (src/grok/mention.py `MentionMonitor.run`) -/

/-- The inter-iteration sleep of `MentionMonitor.run`:
`for _ in range(n): if not self._running: break; await asyncio.sleep(1)`,
in a timing model where the stop signal is raised at time `T` (so the flag
read at time `t` sees "stopped" iff `T ≤ t`).  Starting the loop at time `t`,
the result is the time at which the loop is exited. -/
def sleepLoop (T : ℚ) : Nat → ℚ → ℚ
  | 0, t => t
  | n + 1, t => if T ≤ t then t else sleepLoop T n (t + 1)

/-- The `while self._running:` driver loop of `MentionMonitor.run` in the same
timing model: each iteration (one ingestion sweep plus one processing pass)
takes `d`, followed by the inter-iteration sleep over `n = poll_interval`
one-second checks; `f` bounds the number of iterations observed.  Returns the
start times of the iterations that are started. -/
def runLoop (T : ℚ) (n : Nat) (d : ℚ) : Nat → ℚ → List ℚ
  | 0, _ => []
  | f + 1, t => if T ≤ t then [] else t :: runLoop T n d f (sleepLoop T n (t + d))

/-! ## Reachable store states

The store states produced by the pipeline's own operations: ingestion inserts
rows with status `"pending"` (`sync_mentions`), the processing pass issues the
status transitions of `process_mentions` (claim to `processing`, then
`replied` with a non-empty text / `skipped` / `failed`), and the
(spec-modelled) timeout recovery resets stale `processing` rows. -/
inductive ReachableDb : List Mention → Prop where
  | empty : ReachableDb []
  | ins (db : List Mention) (m : Mention) (now : Int) (hst : m.status = "pending")
      (h : ReachableDb db) : ReachableDb (insert_mention db m now).2
  | claim_processing (db : List Mention) (id : Int) (now : Int)
      (h : ReachableDb db) : ReachableDb (update_mention_status db id "processing" none now)
  | finish_replied (db : List Mention) (id : Int) (now : Int) (t : String) (ht : t ≠ "")
      (h : ReachableDb db) : ReachableDb (update_mention_status db id "replied" (some t) now)
  | finish_skipped (db : List Mention) (id : Int) (now : Int)
      (h : ReachableDb db) : ReachableDb (update_mention_status db id "skipped" none now)
  | finish_failed (db : List Mention) (id : Int) (now : Int)
      (h : ReachableDb db) : ReachableDb (update_mention_status db id "failed" none now)
  | recover (db : List Mention) (cutoff now : Int)
      (h : ReachableDb db) : ReachableDb (recoverStale db cutoff now)

/-- Number of stored records carrying a given id. -/
def countId (db : List Mention) (i : Int) : Nat :=
  (db.filter (fun r => r.id == i)).length

/-! ## Concrete example records -/

/-- A sample fresh mention used by witnesses. -/
def exM : Mention :=
  { id := 1, type := .num 1, oid := 10, root := 0, parent := 0, mid := 20,
    uname := "u", content := "hello", ctime := 100, status := "pending" }

/-- A pending mention with a given id and ctime, for the ordering example. -/
def pendAt (i ct : Int) : Mention :=
  { id := i, type := .num 1, oid := 10, root := 0, parent := 0, mid := 20,
    uname := "u", content := "c", ctime := ct, status := "pending" }

/-- The spec's ordering example: pending mentions with `createdAtEpoch`
100–104, inserted in a shuffled order. -/
def ord5Db : List Mention :=
  [pendAt 3 102, pendAt 1 100, pendAt 5 104, pendAt 2 101, pendAt 4 103]

/-- A record stuck in `processing` since epoch 10, for the timeout-recovery
witness. -/
def procM : Mention :=
  { id := 2, type := .num 1, oid := 10, root := 0, parent := 0, mid := 20,
    uname := "u", content := "c", ctime := 101, status := "processing",
    updated_at := some 10 }

/-- A feed item with the numeric legacy kind `1`. -/
def itemN1 : MentionItem :=
  { id := 11, type := .num 1, oid := 5, root := 0, parent := 0, mid := 9,
    uname := "a", content := "m1", ctime := 50, hide_reply_button := false }

/-- A feed item with the string kind `"reply"`. -/
def itemSReply : MentionItem :=
  { itemN1 with id := 12, type := .str "reply" }

/-- A feed item whose id is already in the store in the dedup scenario. -/
def itemKnown : MentionItem :=
  { itemN1 with id := 13 }

/-- A fresh feed item following the already-known one in the dedup scenario. -/
def itemFresh : MentionItem :=
  { itemN1 with id := 14 }

end BilibiliGrok

namespace BilibiliGrok

lemma hasId_iff (db : List Mention) (i : Int) :
    hasId db i = true ↔ ∃ r ∈ db, r.id = i := by
  simp [hasId, List.any_eq_true, beq_iff_eq]

lemma hasId_false_iff (db : List Mention) (i : Int) :
    hasId db i = false ↔ ∀ r ∈ db, r.id ≠ i := by
  simp [hasId, List.any_eq_false, beq_iff_eq]

lemma pickNewest_eq_none_iff (l : List Mention) : pickNewest l = none ↔ l = [] := by
  cases l with
  | nil => simp [pickNewest]
  | cons r rest =>
    rw [pickNewest]
    cases hp : pickNewest rest with
    | none => simp
    | some b =>
      simp only
      split <;> simp

lemma pickNewest_mem {l : List Mention} : ∀ {m : Mention}, pickNewest l = some m → m ∈ l := by
  induction l with
  | nil => intro m h; simp [pickNewest] at h
  | cons r rest ih =>
    intro m h
    rw [pickNewest] at h
    cases hp : pickNewest rest with
    | none =>
      rw [hp] at h
      simp at h
      simp [h]
    | some b =>
      rw [hp] at h
      simp only at h
      split at h
      · simp at h; simp [h]
      · simp at h; exact List.mem_cons.2 (Or.inr (h ▸ ih hp))

lemma pickNewest_max {l : List Mention} : ∀ {m : Mention}, pickNewest l = some m →
    ∀ r ∈ l, r.ctime ≤ m.ctime := by
  induction l with
  | nil => intro m h; simp
  | cons a rest ih =>
    intro m h r hr
    rw [pickNewest] at h
    cases hp : pickNewest rest with
    | none =>
      rw [hp] at h
      simp at h
      rcases List.mem_cons.1 hr with hra | hrr
      · simp [hra, h]
      · exact absurd (List.eq_nil_iff_forall_not_mem.1 ((pickNewest_eq_none_iff rest).1 hp) r) (by simp [hrr])
    | some b =>
      rw [hp] at h
      simp only at h
      rcases List.mem_cons.1 hr with hra | hrr
      · subst hra
        split at h
        · simp at h; simp [h]
        · simp at h
          subst h
          omega
      · have hb := ih hp r hrr
        split at h
        · simp at h
          subst h
          omega
        · simp at h
          subst h
          omega

/-- C4. The first insert of a fresh id returns `true` and persists the
record; a later insert with the same id returns `false`, leaves the store
unchanged, and the store holds exactly one record with that id. -/
theorem insert_mention_dedup (db : List Mention) (m m2 : Mention) (now now2 : Int)
    (hfresh : ∀ r ∈ db, r.id ≠ m.id) (hsame : m2.id = m.id) :
    (insert_mention db m now).1 = true ∧
    (∃ r ∈ (insert_mention db m now).2, r.id = m.id) ∧
    (insert_mention (insert_mention db m now).2 m2 now2).1 = false ∧
    (insert_mention (insert_mention db m now).2 m2 now2).2 = (insert_mention db m now).2 ∧
    countId (insert_mention (insert_mention db m now).2 m2 now2).2 m.id = 1 := by
  have h1 : hasId db m.id = false := (hasId_false_iff db m.id).2 hfresh
  have hrow : (insertedRow m now).id = m.id := rfl
  have hins : insert_mention db m now = (true, db ++ [insertedRow m now]) := by
    simp [insert_mention, h1]
  have h2 : hasId (db ++ [insertedRow m now]) m2.id = true := by
    refine (hasId_iff _ _).2 ⟨insertedRow m now, ?_, by simp [hrow, hsame]⟩
    simp
  have hins2 : insert_mention (db ++ [insertedRow m now]) m2 now2 =
      (false, db ++ [insertedRow m now]) := by
    simp [insert_mention, h2]
  have hcount : countId (db ++ [insertedRow m now]) m.id = 1 := by
    have hdb : db.filter (fun r => r.id == m.id) = [] := by
      refine List.filter_eq_nil_iff.2 ?_
      intro r hr
      simp [beq_iff_eq]
      exact hfresh r hr
    simp [countId, List.filter_append, hdb, hrow]
  refine ⟨by simp [hins], ⟨insertedRow m now, by simp [hins], hrow⟩, ?_, ?_, ?_⟩
  · rw [hins]; simp only; rw [hins2]
  · rw [hins]; simp only; rw [hins2]
  · rw [hins]; simp only; rw [hins2]; simp only; exact hcount

/-- C4 witness: dedup at a concrete record. -/
theorem insert_mention_dedup_witness :
    (insert_mention [] exM 5).1 = true ∧
    (∃ r ∈ (insert_mention [] exM 5).2, r.id = exM.id) ∧
    (insert_mention (insert_mention [] exM 5).2 exM 6).1 = false ∧
    (insert_mention (insert_mention [] exM 5).2 exM 6).2 = (insert_mention [] exM 5).2 ∧
    countId (insert_mention (insert_mention [] exM 5).2 exM 6).2 exM.id = 1 :=
  insert_mention_dedup [] exM exM 5 6 (by simp) rfl

/-- C5. `get_one_pending_mention` returns a pending record of greatest
`ctime` whenever a pending record exists (in particular, for pending ctimes
100–104 inserted in shuffled order it returns the one with ctime 104),
returns `none` when no pending record exists, and leaves the store
unchanged. -/
theorem get_one_pending_newest (db : List Mention) :
    ((∃ r ∈ db, r.status = "pending") →
      ∃ m, (get_one_pending_mention db).1 = some m ∧ m ∈ db ∧ m.status = "pending" ∧
        ∀ r ∈ db, r.status = "pending" → r.ctime ≤ m.ctime) ∧
    ((∀ r ∈ db, r.status ≠ "pending") → (get_one_pending_mention db).1 = none) ∧
    (get_one_pending_mention db).2 = db ∧
    ((get_one_pending_mention ord5Db).1.map (fun m => m.ctime) = some 104 ∧
      (get_one_pending_mention ord5Db).1.map (fun m => m.id) = some 5) := by
  refine ⟨?_, ?_, rfl, by decide, by decide⟩
  · rintro ⟨r, hr, hrp⟩
    have hrf : r ∈ db.filter (fun x => x.status == "pending") := by
      simp [List.mem_filter, hr, hrp]
    cases hp : pickNewest (db.filter (fun x => x.status == "pending")) with
    | none =>
      rw [(pickNewest_eq_none_iff _).1 hp] at hrf
      simp at hrf
    | some m =>
      have hmf := pickNewest_mem hp
      have hmax := pickNewest_max hp
      refine ⟨m, by simp [get_one_pending_mention, hp], (List.mem_filter.1 hmf).1, ?_, ?_⟩
      · have := (List.mem_filter.1 hmf).2
        simpa [beq_iff_eq] using this
      · intro x hx hxp
        exact hmax x (by simp [List.mem_filter, hx, hxp])
  · intro hall
    have hf : db.filter (fun x => x.status == "pending") = [] := by
      refine List.filter_eq_nil_iff.2 ?_
      intro x hx
      simp [beq_iff_eq]
      exact hall x hx
    simp [get_one_pending_mention, hf, pickNewest]

/-- C5 witness: the ordering example, with the existence hypothesis
discharged at the shuffled five-record store. -/
theorem get_one_pending_newest_witness :
    ∃ m, (get_one_pending_mention ord5Db).1 = some m ∧ m ∈ ord5Db ∧
      m.status = "pending" ∧ ∀ r ∈ ord5Db, r.status = "pending" → r.ctime ≤ m.ctime :=
  (get_one_pending_newest ord5Db).1 ⟨pendAt 3 102, by decide, by decide⟩

/-- C9 counterexample: called with an id absent from the store,
`update_mention_status` does not fail — it returns the store unchanged —
whereas the spec's `updateStatus` contract demands a `NotFound` failure. -/
theorem update_status_notfound_counterexample :
    update_mention_status [] 7 "failed" none 3 = [] ∧
    updateStatusSpec [] 7 "failed" none 3 = Except.error DbError.notFound :=
  ⟨rfl, rfl⟩

/-- C9 amended: with an absent id, `update_mention_status` silently updates
zero rows and leaves the store unchanged (no error is raised); with a present
id it writes the new status, reply text, and `updated_at` onto every record
with that id. -/
theorem update_mention_status_amended (db : List Mention) (id : Int) (st : String)
    (v : Option String) (now : Int) :
    ((∀ r ∈ db, r.id ≠ id) → update_mention_status db id st v now = db) ∧
    (∀ r ∈ db, r.id = id →
      { r with status := st, reply_content := v, updated_at := some now } ∈
        update_mention_status db id st v now) := by
  constructor
  · intro habs
    have : ∀ r ∈ db,
        (if r.id = id then
          { r with status := st, reply_content := v, updated_at := some now }
         else r) = r := by
      intro r hr
      simp [habs r hr]
    calc update_mention_status db id st v now = db.map (fun r => r) :=
          List.map_congr_left this
      _ = db := List.map_id _
  · intro r hr hid
    refine List.mem_map.2 ⟨r, hr, ?_⟩
    simp [hid]

/-- C9 witness: the amended behaviour at a concrete store — an update aimed
at absent id 7 is a silent no-op, and one aimed at present id 1 rewrites the
record. -/
theorem update_mention_status_amended_witness :
    update_mention_status [exM] 7 "failed" none 3 = [exM] ∧
    { exM with status := "replied", reply_content := some "hi", updated_at := some 4 } ∈
      update_mention_status [exM] 1 "replied" (some "hi") 4 :=
  ⟨(update_mention_status_amended [exM] 7 "failed" none 3).1 (by decide),
   (update_mention_status_amended [exM] 1 "replied" (some "hi") 4).2 exM (by decide) (by decide)⟩

/-- C10. `update_mention_status` rewrites, position by position, exactly the
records carrying the given id — setting their status, overwriting
`reply_content` with the supplied value (so a call that omits the reply text
erases any stored one), and refreshing `updated_at` — while every other
column of those records and every other record stay unchanged, and no record
is added or removed. -/
theorem update_mention_status_frame (db : List Mention) (id : Int) (st : String)
    (v : Option String) (now : Int) :
    (update_mention_status db id st v now).length = db.length ∧
    ∀ (i : Nat) (hi : i < db.length) (hi2 : i < (update_mention_status db id st v now).length),
      (update_mention_status db id st v now).get ⟨i, hi2⟩ =
        (if (db.get ⟨i, hi⟩).id = id
         then { db.get ⟨i, hi⟩ with status := st, reply_content := v, updated_at := some now }
         else db.get ⟨i, hi⟩) := by
  refine ⟨by simp [update_mention_status], ?_⟩
  intro i hi hi2
  simp [update_mention_status, List.getElem_map]

/-- C10 witness: updating id 1 without reply text in a two-record store
erases the stored reply of the id-1 record (its other columns intact) and
leaves the id-2 record untouched. -/
theorem update_mention_status_frame_witness :
    (update_mention_status [{ exM with reply_content := some "old" }, pendAt 2 101] 1 "failed" none 9).length =
      ([{ exM with reply_content := some "old" }, pendAt 2 101] : List Mention).length ∧
    (update_mention_status [{ exM with reply_content := some "old" }, pendAt 2 101] 1 "failed" none 9).get ⟨0, by decide⟩ =
      { exM with status := "failed", reply_content := none, updated_at := some 9 } ∧
    (update_mention_status [{ exM with reply_content := some "old" }, pendAt 2 101] 1 "failed" none 9).get ⟨1, by decide⟩ =
      pendAt 2 101 := by
  have h := update_mention_status_frame [{ exM with reply_content := some "old" }, pendAt 2 101] 1 "failed" none 9
  refine ⟨h.1, ?_, ?_⟩
  · have h0 := h.2 0 (by decide) (by decide)
    rw [h0]
    decide
  · have h1 := h.2 1 (by decide) (by decide)
    rw [h1]
    decide

lemma sleepLoop_le_max (T : ℚ) : ∀ (n : Nat) (t : ℚ), sleepLoop T n t ≤ max t (T + 1) := by
  intro n
  induction n with
  | zero => intro t; rw [sleepLoop]; exact le_max_left _ _
  | succ n ih =>
    intro t
    rw [sleepLoop]
    split
    · exact le_max_left _ _
    · rename_i h
      push_neg at h
      calc sleepLoop T n (t + 1) ≤ max (t + 1) (T + 1) := ih (t + 1)
        _ = T + 1 := max_eq_right (by linarith)
        _ ≤ max t (T + 1) := le_max_right _ _

lemma sleepLoop_le_add (T : ℚ) : ∀ (n : Nat) (t : ℚ), sleepLoop T n t ≤ t + n := by
  intro n
  induction n with
  | zero => intro t; rw [sleepLoop]; simp
  | succ n ih =>
    intro t
    rw [sleepLoop]
    split
    · push_cast
      linarith [Nat.cast_nonneg (α := ℚ) n]
    · have := ih (t + 1)
      push_cast
      push_cast at this
      linarith

lemma runLoop_lt (T : ℚ) (n : Nat) (d : ℚ) :
    ∀ (f : Nat) (t : ℚ), ∀ s ∈ runLoop T n d f t, s < T := by
  intro f
  induction f with
  | zero => intro t s hs; rw [runLoop] at hs; simp at hs
  | succ f ih =>
    intro t s hs
    rw [runLoop] at hs
    split at hs
    · simp at hs
    · rename_i h
      push_neg at h
      rcases List.mem_cons.1 hs with h1 | h2
      · exact h1 ▸ h
      · exact ih _ s h2

/-- C8. Driver-loop shutdown latency: starting the inter-iteration sleep at
time `t` with the stop signal raised at time `T`, the loop is exited by
`max t (T + 1)` — within the one-second check granularity of the signal
(and immediately if the signal predates the sleep) — and in any case by
`t + pollInterval`; moreover every loop iteration that is started starts
strictly before the signal: once the signal is raised no new ingestion sweep
or processing pass begins. -/
theorem driver_stop_responsiveness (T d t : ℚ) (n f : Nat) :
    sleepLoop T n t ≤ max t (T + 1) ∧
    sleepLoop T n t ≤ t + n ∧
    (∀ s ∈ runLoop T n d f t, s < T) :=
  ⟨sleepLoop_le_max T n t, sleepLoop_le_add T n t, runLoop_lt T n d f t⟩

/-- C8 witness: poll interval 5, one-second iteration, stop signal at time 2:
the sleep started at time 0 exits by time 3, and the iteration started at
time 0 precedes the signal. -/
theorem driver_stop_responsiveness_witness :
    sleepLoop 2 5 0 ≤ max 0 (2 + 1) ∧ sleepLoop 2 5 0 ≤ 0 + (5 : Nat) ∧ (0 : ℚ) < 2 :=
  ⟨(driver_stop_responsiveness 2 1 0 5 2).1, (driver_stop_responsiveness 2 1 0 5 2).2.1,
   (driver_stop_responsiveness 2 1 0 5 2).2.2 0 (by norm_num [runLoop, sleepLoop])⟩

/-- C7 counterexample: with `rateLimitInterval = 2`, a first `send` called at
time 10 whose write takes 5 (issue 10, completion 15, throttle stamp 10) and
a second `send` called at time 15, right after the first completes: the
second write is issued at 15 — less than the interval after the first
dispatch completed at 15 — and with an instant second write the two calls
complete 0 apart, sooner than the interval.  The throttle stamp is taken
before the write, not at dispatch completion. -/
theorem reply_throttle_counterexample :
    (reply_to_comment_times 2 0 10 5).2.1 = 15 ∧
    (reply_to_comment_times 2 (reply_to_comment_times 2 0 10 5).2.2 15 0).1 = 15 ∧
    (reply_to_comment_times 2 (reply_to_comment_times 2 0 10 5).2.2 15 0).2.1 = 15 ∧
    ¬ ((reply_to_comment_times 2 (reply_to_comment_times 2 0 10 5).2.2 15 0).1 ≥
        (reply_to_comment_times 2 0 10 5).2.1 + 2) ∧
    ¬ ((reply_to_comment_times 2 (reply_to_comment_times 2 0 10 5).2.2 15 0).2.1 -
        (reply_to_comment_times 2 0 10 5).2.1 ≥ 2) := by
  norm_num [reply_to_comment_times, check_rate_limit]

/-- C7 amended: (a) the throttle separates the *issue times* of the
underlying writes: for any two consecutive `send` calls, the second write is
issued no earlier than `rateLimitInterval` after the instant the first write
was issued (the stored throttle stamp), whatever the calls' start times and
write durations; (b) the throttle wait is itself cancellable: a cancellation
signalled while the sleep is pending aborts the wait at the signal instant —
the scheduled wake, and hence the underlying write, is never reached — and
(c) a cancellation signalled only at or after the scheduled wake leaves the
wait to complete at that wake. -/
theorem reply_throttle_spacing_cancellable (rate last s1 d1 s2 d2 c : ℚ) :
    ((reply_to_comment_times rate (reply_to_comment_times rate last s1 d1).2.2 s2 d2).1 ≥
      (reply_to_comment_times rate last s1 d1).1 + rate) ∧
    (s1 ≤ c → c < check_rate_limit rate last s1 →
      check_rate_limit_cancellable rate last s1 c = .cancelledAt c) ∧
    (check_rate_limit rate last s1 ≤ c →
      check_rate_limit_cancellable rate last s1 c = .completed (check_rate_limit rate last s1)) := by
  refine ⟨?_, ?_, ?_⟩
  · simp only [reply_to_comment_times, check_rate_limit]
    split_ifs <;> linarith
  · intro hsc hc
    rw [check_rate_limit] at hc
    rw [check_rate_limit_cancellable]
    split_ifs with h1 h2
    · rw [max_eq_right hsc]
    · rw [if_pos h1] at hc
      exact absurd hc (by linarith)
    · rw [if_neg h1] at hc
      exact absurd hc (by linarith)
  · intro hc
    rw [check_rate_limit] at hc
    rw [check_rate_limit_cancellable, check_rate_limit]
    split_ifs with h1 h2
    · rw [if_pos h1] at hc
      exact absurd hc (by linarith)
    · rfl
    · rfl

/-- C7 amended witness: with interval 2 and throttle stamp 9, a call at time
10 schedules its wake at 11; the consecutive-call spacing holds, a
cancellation at 10.5 aborts the wait right there, and a cancellation only at
12 lets the wait complete. -/
theorem reply_throttle_spacing_cancellable_witness :
    ((reply_to_comment_times 2 (reply_to_comment_times 2 9 10 5).2.2 15 0).1 ≥
      (reply_to_comment_times 2 9 10 5).1 + 2) ∧
    check_rate_limit_cancellable 2 9 10 (21 / 2) = .cancelledAt (21 / 2) ∧
    check_rate_limit_cancellable 2 9 10 12 = .completed (check_rate_limit 2 9 10) :=
  ⟨(reply_throttle_spacing_cancellable 2 9 10 5 15 0 (21 / 2)).1,
   (reply_throttle_spacing_cancellable 2 9 10 5 15 0 (21 / 2)).2.1 (by norm_num)
     (by norm_num [check_rate_limit]),
   (reply_throttle_spacing_cancellable 2 9 10 5 15 0 12).2.2
     (by norm_num [check_rate_limit])⟩

/-- C2. Timeout recovery (spec-modelled): a record in `processing` whose
`updatedAt` epoch is older than the stale cutoff is returned by `listStale`,
is reset to `pending` by the recovery pass, and the recovered store again has
a pending record for `claimOnePending` to return. -/
theorem timeout_recovery (db : List Mention) (r : Mention) (u cutoff now : Int)
    (hmem : r ∈ db) (hst : r.status = "processing") (hu : r.updated_at = some u)
    (hold : u < cutoff) :
    r ∈ listStale db "processing" cutoff ∧
    { r with status := "pending", updated_at := some now } ∈ recoverStale db cutoff now ∧
    (get_one_pending_mention (recoverStale db cutoff now)).1.isSome = true := by
  have hstale : staleB r "processing" cutoff = true := by
    simp [staleB, hst, hu, hold]
  refine ⟨?_, ?_, ?_⟩
  · simp [listStale, List.mem_filter, hmem, hstale]
  · exact List.mem_map.2 ⟨r, hmem, by simp [recoverStale, hstale]⟩
  · have hmem2 : { r with status := "pending", updated_at := some now } ∈
        (recoverStale db cutoff now).filter (fun x => x.status == "pending") := by
      refine List.mem_filter.2 ⟨List.mem_map.2 ⟨r, hmem, by simp [recoverStale, hstale]⟩, by simp⟩
    cases hp : pickNewest ((recoverStale db cutoff now).filter (fun x => x.status == "pending")) with
    | none =>
      rw [(pickNewest_eq_none_iff _).1 hp] at hmem2
      simp at hmem2
    | some m => simp [get_one_pending_mention, hp]

/-- C2 witness: a record stuck in `processing` since epoch 10 with cutoff 20
is listed stale, reset to `pending` at epoch 30, and claimable again. -/
theorem timeout_recovery_witness :
    procM ∈ listStale [procM] "processing" 20 ∧
    { procM with status := "pending", updated_at := some 30 } ∈ recoverStale [procM] 20 30 ∧
    (get_one_pending_mention (recoverStale [procM] 20 30)).1.isSome = true :=
  timeout_recovery [procM] procM 10 20 30 (by decide) rfl rfl (by decide)

/-- C3. Status invariant: in every store state reachable through the
pipeline's operations — pending inserts, the claim/terminal transitions of
the processing pass, and (spec-modelled) timeout recovery — a record has
status `replied` exactly when its reply text is non-null. -/
theorem status_invariant_reachable (db : List Mention) (h : ReachableDb db) :
    ∀ r ∈ db, r.status = "replied" ↔ r.reply_content ≠ none := by
  induction h with
  | empty => simp
  | ins db m now hst hdb ih =>
    intro r hr
    simp only [insert_mention] at hr
    split at hr
    · exact ih r hr
    · simp only at hr
      rcases List.mem_append.1 hr with hrd | hrn
      · exact ih r hrd
      · simp at hrn
        subst hrn
        simp [insertedRow, hst]
  | claim_processing db id now hdb ih =>
    intro r hr
    rcases List.mem_map.1 hr with ⟨s, hs, rfl⟩
    by_cases hsid : s.id = id
    · simp [if_pos hsid]
    · simp only [if_neg hsid]
      exact ih s hs
  | finish_replied db id now t ht hdb ih =>
    intro r hr
    rcases List.mem_map.1 hr with ⟨s, hs, rfl⟩
    by_cases hsid : s.id = id
    · simp [if_pos hsid]
    · simp only [if_neg hsid]
      exact ih s hs
  | finish_skipped db id now hdb ih =>
    intro r hr
    rcases List.mem_map.1 hr with ⟨s, hs, rfl⟩
    by_cases hsid : s.id = id
    · simp [if_pos hsid]
    · simp only [if_neg hsid]
      exact ih s hs
  | finish_failed db id now hdb ih =>
    intro r hr
    rcases List.mem_map.1 hr with ⟨s, hs, rfl⟩
    by_cases hsid : s.id = id
    · simp [if_pos hsid]
    · simp only [if_neg hsid]
      exact ih s hs
  | recover db cutoff now hdb ih =>
    intro r hr
    rcases List.mem_map.1 hr with ⟨s, hs, rfl⟩
    by_cases hstale : staleB s "processing" cutoff = true
    · have hsp : s.status = "processing" := by
        have h2 := hstale
        simp only [staleB, Bool.and_eq_true, beq_iff_eq] at h2
        exact h2.1
      have hnone : s.reply_content = none := by
        by_contra hc
        have := (ih s hs).2 hc
        rw [hsp] at this
        exact absurd this (by decide)
      simp [if_pos hstale, hnone]
    · simp only [Bool.not_eq_true] at hstale
      simp only [if_neg (by simp [hstale] : ¬ staleB s "processing" cutoff = true)]
      exact ih s hs

/-- C3 witness: the invariant at the record produced by inserting a pending
mention, claiming it, and finishing with reply text `"hi"`. -/
theorem status_invariant_reachable_witness :
    ({ exM with
        status := "replied", reply_content := some "hi",
        created_at := some 5, updated_at := some 7 } : Mention).status = "replied" ↔
    ({ exM with
        status := "replied", reply_content := some "hi",
        created_at := some 5, updated_at := some 7 } : Mention).reply_content ≠ none :=
  status_invariant_reachable _
    (ReachableDb.finish_replied _ 1 7 "hi" (by decide)
      (ReachableDb.claim_processing _ 1 6
        (ReachableDb.ins [] exM 5 rfl ReachableDb.empty)))
    _ (by decide)

lemma find?_update_mention_status (db : List Mention) (id : Int) (st : String)
    (v : Option String) (now : Int) :
    (update_mention_status db id st v now).find? (fun r => r.id == id) =
      (db.find? (fun r => r.id == id)).map
        (fun r => { r with status := st, reply_content := v, updated_at := some now }) := by
  induction db with
  | nil => rfl
  | cons a rest ih =>
    by_cases hid : a.id = id
    · show List.find? _ ((if a.id = id then _ else a) :: _) = _
      rw [if_pos hid]
      rw [List.find?_cons_of_pos _ (by simp [hid])]
      rw [List.find?_cons_of_pos _ (by simp [hid])]
      rfl
    · show List.find? _ ((if a.id = id then _ else a) :: _) = _
      rw [if_neg hid]
      rw [List.find?_cons_of_neg _ (by simp [hid])]
      rw [List.find?_cons_of_neg _ (by simp [hid])]
      exact ih

/-- C1 counterexample: the spec's scenario "claim a record, dispatcher `send`
returns the code for comment-deleted; final status is `failed`" is false on
the code: the handler catches the dispatch error and returns `None`, so the
processing pass records `skipped`, not `failed`. -/
theorem pipeline_dispatch_error_counterexample :
    statusReplyOf (processOne [exM] 1 (handle_mention (.ok "hi") .protocolError) 6) 1 =
      some ("skipped", none) ∧
    ("skipped" : String) ≠ "failed" :=
  ⟨by decide, by decide⟩

/-- C1 amended: terminal status of one claimed mention as a function of the
generation and dispatch outcomes.  A successful generation-and-dispatch with
non-empty text stores the text and marks `replied`; an empty text marks
`skipped`; but every error that arises inside the mention handler —
generation failure, generation timeout, generation cancellation (re-raised as
`AgentError`), and dispatch protocol errors such as comment-deleted — is
caught by the handler's blanket `except Exception`, so the record is marked
`skipped`, not `failed`; `failed` would require the handler itself to raise,
which the pipeline's handler never does; a cancellation during dispatch
propagates and leaves the record in `processing`. -/
theorem pipeline_terminal_status (db : List Mention) (id : Int) (now : Int)
    (gen : GenOutcome) (disp : DispatchOutcome)
    (h : (db.find? (fun x => x.id == id)).isSome = true) :
    statusReplyOf (processOne db id (handle_mention gen disp) now) id =
      some (match gen, disp with
        | .ok t, .ok => if t = "" then ("skipped", none) else ("replied", some t)
        | .ok _, .protocolError => ("skipped", none)
        | .ok _, .cancelled => ("processing", none)
        | .err, _ => ("skipped", none)
        | .cancelled, _ => ("skipped", none)) := by
  rcases Option.isSome_iff_exists.1 h with ⟨r, hr⟩
  cases gen with
  | ok t =>
    cases disp with
    | ok =>
      by_cases ht : t = ""
      · simp [processOne, handle_mention, generate_reply, statusReplyOf,
          find?_update_mention_status, hr, ht]
      · simp [processOne, handle_mention, generate_reply, statusReplyOf,
          find?_update_mention_status, hr, ht]
    | protocolError =>
      simp [processOne, handle_mention, generate_reply, statusReplyOf,
        find?_update_mention_status, hr]
    | cancelled =>
      simp [processOne, handle_mention, generate_reply, statusReplyOf,
        find?_update_mention_status, hr]
  | err =>
    simp [processOne, handle_mention, generate_reply, statusReplyOf,
      find?_update_mention_status, hr]
  | cancelled =>
    simp [processOne, handle_mention, generate_reply, statusReplyOf,
      find?_update_mention_status, hr]

/-- C1 witness: a successful generation of `"hey"` with successful dispatch
ends with the record `replied` and the text stored. -/
theorem pipeline_terminal_status_witness :
    statusReplyOf (processOne [exM] 1 (handle_mention (.ok "hey") .ok) 6) 1 =
      some ("replied", some "hey") := by
  have h := pipeline_terminal_status [exM] 1 6 (.ok "hey") .ok (by decide)
  simpa using h

lemma mem_filter_valid {it : MentionItem} {items : List MentionItem}
    (h : it ∈ filter_valid_mentions items) :
    it ∈ items ∧ it.hide_reply_button = false ∧ validKind it.type = true := by
  have h2 := List.mem_filter.1 h
  have h3 := h2.2
  simp only [Bool.and_eq_true, Bool.not_eq_true'] at h3
  exact ⟨h2.1, h3.1, h3.2⟩

lemma insertBatch_length : ∀ (items : List MentionItem) (db : List Mention) (now : Int),
    (insertBatch items db now).2.length = db.length + (insertBatch items db now).1 := by
  intro items
  induction items with
  | nil => intro db now; simp [insertBatch]
  | cons m rest ih =>
    intro db now
    simp only [insertBatch]
    by_cases h : hasId db (toDbMention m).id
    · simp only [insert_mention, if_pos h]
      simpa using ih db now
    · simp only [insert_mention, if_neg h]
      have h2 := ih (db ++ [insertedRow (toDbMention m) now]) now
      simp only [List.length_append, List.length_cons, List.length_nil] at h2
      simp only [cond_true]
      omega

lemma insertBatch_provenance : ∀ (items : List MentionItem) (db : List Mention) (now : Int)
    (r : Mention), r ∈ (insertBatch items db now).2 →
      r ∈ db ∨ ∃ it ∈ items, r = insertedRow (toDbMention it) now := by
  intro items
  induction items with
  | nil =>
    intro db now r hr
    simp only [insertBatch] at hr
    exact Or.inl hr
  | cons m rest ih =>
    intro db now r hr
    simp only [insertBatch] at hr
    rcases ih (insert_mention db (toDbMention m) now).2 now r hr with hin | ⟨it, hit, heq⟩
    · by_cases h : hasId db (toDbMention m).id
      · simp only [insert_mention, if_pos h] at hin
        exact Or.inl hin
      · simp only [insert_mention, if_neg h] at hin
        rcases List.mem_append.1 hin with h1 | h2
        · exact Or.inl h1
        · right
          exact ⟨m, by simp, by simpa using h2⟩
    · right
      exact ⟨it, by simp [hit], heq⟩

lemma sync_mentions_length :
    ∀ (feed : List (List MentionItem × Int)) (db : List Mention) (now : Int),
      (sync_mentions feed db now).2.length = db.length + (sync_mentions feed db now).1 := by
  intro feed
  induction feed with
  | nil => intro db now; simp [sync_mentions]
  | cons p rest ih =>
    intro db now
    rcases p with ⟨items, cur⟩
    simp only [sync_mentions]
    by_cases he : items.isEmpty
    · simp [he]
    · simp only [if_neg he]
      by_cases hc : cur = 0
      · simp only [if_pos hc]
        exact insertBatch_length _ db now
      · simp only [if_neg hc]
        have h1 := insertBatch_length (filter_valid_mentions items) db now
        have h2 := ih (insertBatch (filter_valid_mentions items) db now).2 now
        omega

lemma sync_mentions_provenance :
    ∀ (feed : List (List MentionItem × Int)) (db : List Mention) (now : Int) (r : Mention),
      r ∈ (sync_mentions feed db now).2 →
        r ∈ db ∨ ∃ p ∈ feed, ∃ it ∈ p.1, it.hide_reply_button = false ∧
          validKind it.type = true ∧ r = insertedRow (toDbMention it) now := by
  intro feed
  induction feed with
  | nil =>
    intro db now r hr
    simp only [sync_mentions] at hr
    exact Or.inl hr
  | cons p rest ih =>
    intro db now r hr
    rcases p with ⟨items, cur⟩
    simp only [sync_mentions] at hr
    by_cases he : items.isEmpty
    · rw [if_pos he] at hr
      exact Or.inl hr
    · rw [if_neg he] at hr
      by_cases hc : cur = 0
      · rw [if_pos hc] at hr
        rcases insertBatch_provenance _ db now r hr with h1 | ⟨it, hit, heq⟩
        · exact Or.inl h1
        · rcases mem_filter_valid hit with ⟨hmem, hhide, hkind⟩
          right
          exact ⟨(items, cur), by simp, it, hmem, hhide, hkind, heq⟩
      · rw [if_neg hc] at hr
        rcases ih _ now r hr with h1 | ⟨q, hq, it, hit, h3⟩
        · rcases insertBatch_provenance _ db now r h1 with h2 | ⟨it, hit, heq⟩
          · exact Or.inl h2
          · rcases mem_filter_valid hit with ⟨hmem, hhide, hkind⟩
            right
            exact ⟨(items, cur), by simp, it, hmem, hhide, hkind, heq⟩
        · right
          exact ⟨q, by simp [hq], it, hit, h3⟩

/-- C6.  One ingestion sweep: (a) it returns exactly the number of records it
newly inserted (the store grows by the returned count); (b) every record it
adds originates from a fetched item that passed the actionability filter —
so an item with `hide_reply_button` true, or with a kind outside the
allow-set, is never inserted; (c) numeric kind `1` and string kind `"reply"`
are both allowed, and a page carrying one fresh item of each inserts both;
(d) an insert returning false (already-known id) is not counted and does not
stop the iteration: a page holding a known item then a fresh one yields count
1 and the fresh record is stored. -/
theorem sync_mentions_spec :
    (∀ (feed : List (List MentionItem × Int)) (db : List Mention) (now : Int),
      (sync_mentions feed db now).2.length = db.length + (sync_mentions feed db now).1) ∧
    (∀ (feed : List (List MentionItem × Int)) (db : List Mention) (now : Int) (r : Mention),
      r ∈ (sync_mentions feed db now).2 →
        r ∈ db ∨ ∃ p ∈ feed, ∃ it ∈ p.1, it.hide_reply_button = false ∧
          validKind it.type = true ∧ r = insertedRow (toDbMention it) now) ∧
    validKind (.num 1) = true ∧
    validKind (.str "reply") = true ∧
    (sync_mentions [([itemN1, itemSReply], 0)] [] 7).1 = 2 ∧
    (∃ r ∈ (sync_mentions [([itemN1, itemSReply], 0)] [] 7).2, r.id = itemN1.id) ∧
    (∃ r ∈ (sync_mentions [([itemN1, itemSReply], 0)] [] 7).2, r.id = itemSReply.id) ∧
    (sync_mentions [([itemKnown, itemFresh], 0)] [insertedRow (toDbMention itemKnown) 3] 7).1 = 1 ∧
    (∃ r ∈ (sync_mentions [([itemKnown, itemFresh], 0)] [insertedRow (toDbMention itemKnown) 3] 7).2,
      r.id = itemFresh.id) := by
  refine ⟨sync_mentions_length, sync_mentions_provenance, by decide, by decide, by decide,
    ?_, ?_, by decide, ?_⟩
  · exact ⟨insertedRow (toDbMention itemN1) 7, by decide, by decide⟩
  · exact ⟨insertedRow (toDbMention itemSReply) 7, by decide, by decide⟩
  · exact ⟨insertedRow (toDbMention itemFresh) 7, by decide, by decide⟩

/-- C6 witness: the sweep contracts applied at a one-page feed holding the
numeric-kind item: the store grows by the returned count, and the inserted
record is traced back to the fetched, filter-passing item. -/
theorem sync_mentions_spec_witness :
    (sync_mentions [([itemN1], 0)] [] 7).2.length =
      ([] : List Mention).length + (sync_mentions [([itemN1], 0)] [] 7).1 ∧
    (insertedRow (toDbMention itemN1) 7 ∈ ([] : List Mention) ∨
      ∃ p ∈ [([itemN1], (0 : Int))], ∃ it ∈ p.1, it.hide_reply_button = false ∧
        validKind it.type = true ∧
        insertedRow (toDbMention itemN1) 7 = insertedRow (toDbMention it) 7) :=
  ⟨sync_mentions_spec.1 [([itemN1], 0)] [] 7,
   sync_mentions_spec.2.1 [([itemN1], 0)] [] 7 (insertedRow (toDbMention itemN1) 7) (by decide)⟩

end BilibiliGrok


